import Mathlib

/-!
Verification of the hex addressing and chunked resource-field engine of the
`growth_evolution` repository.  The Rust source (`src/map.rs`, `src/types.rs`)
is shallowly embedded: `f64` arithmetic is modelled by exact real arithmetic,
Rust `i64` by `ℤ`, `usize` by `ℕ`, `Vec` by `List`, and the in-place mutation
of the map by explicit state passing.  Rust's truncating integer division and
remainder are modelled by `Int.tdiv` and `Int.tmod`.

The repository's `constants.rs` is not part of the sources; following the
spec, `SQRT_3` and `INV_SQRT_3` are modelled as `√3` and `1/√3`, and
`CHUNK_SIZE` is kept as an explicit parameter `N` of every definition that
uses it.
-/

open scoped Classical

namespace GE

/-- A 2D point (`types.rs`, `Point`), with `f64` fields modelled as reals. -/
structure Point where
  x : ℝ
  y : ℝ

instance : Add Point := ⟨fun p q => ⟨p.x + q.x, p.y + q.y⟩⟩

instance : Sub Point := ⟨fun p q => ⟨p.x - q.x, p.y - q.y⟩⟩

instance : Neg Point := ⟨fun p => ⟨-p.x, -p.y⟩⟩

instance : HMul Point ℝ Point := ⟨fun p r => ⟨p.x * r, p.y * r⟩⟩

instance : HMul Point Point ℝ := ⟨fun p q => p.x * q.x + p.y * q.y⟩

theorem Point.point_add_def (p q : Point) : p + q = ⟨p.x + q.x, p.y + q.y⟩ := rfl

theorem Point.sub_def (p q : Point) : p - q = ⟨p.x - q.x, p.y - q.y⟩ := rfl

theorem Point.neg_def (p : Point) : -p = ⟨-p.x, -p.y⟩ := rfl

theorem Point.point_smul_def (p : Point) (r : ℝ) : p * r = ⟨p.x * r, p.y * r⟩ := rfl

theorem Point.dot_def (p q : Point) : p * q = p.x * q.x + p.y * q.y := rfl

/-- A 2D index of signed integers (`types.rs`, `Index`). -/
structure Index where
  x : ℤ
  y : ℤ
deriving DecidableEq

instance : Add Index := ⟨fun i j => ⟨i.x + j.x, i.y + j.y⟩⟩

theorem Index.index_add_def (i j : Index) : i + j = ⟨i.x + j.x, i.y + j.y⟩ := rfl

/-- Modelled from the spec: the repository's `constants.rs` is not under
`src/`; per spec section 4.1 the constant `SQRT_3` is the square root of 3. -/
noncomputable def SQRT_3 : ℝ := Real.sqrt 3

/-- Modelled from the spec: `INV_SQRT_3` from the missing `constants.rs` is
the reciprocal of the square root of 3. -/
noncomputable def INV_SQRT_3 : ℝ := 1 / Real.sqrt 3

/-- Rust `%` on `i64`: remainder truncated toward zero. -/
def rustMod (a b : ℤ) : ℤ := Int.tmod a b

/-- Rust `/` on `i64`: division truncated toward zero. -/
def rustDiv (a b : ℤ) : ℤ := Int.tdiv a b

/-- The skewed coordinates computed at the start of `coordinate_to_tile`
(map.rs line 17). -/
noncomputable def skew_point_of (point : Point) : Point :=
  ⟨0.5 * (SQRT_3 * point.x - point.y), point.y⟩

/-- The body of `coordinate_to_tile` (map.rs lines 18-77) applied to the
already-skewed point: candidate lattice index, strip classification, and the
per-strip resolution of the final tile index. -/
noncomputable def tile_from_skew (sp : Point) : Index :=
  let skew_index : Index := ⟨⌊sp.x + 0.5⌋, ⌊sp.y + 0.5⌋⟩
  let strip0 : ℤ := rustMod (skew_index.y - skew_index.x) 3
  let strip : ℤ := if strip0 < 0 then strip0 + 3 else strip0
  let rel_point : Point := sp - ⟨(skew_index.x : ℝ), (skew_index.y : ℝ)⟩
  if strip = 0 then
    (⟨rustDiv (-(4 * skew_index.x + 2 * skew_index.y)) 3,
      rustDiv (2 * skew_index.x + 4 * skew_index.y) 3⟩ : Index) +
      (if rel_point.x + rel_point.y < -0.5 then (⟨1, -1⟩ : Index)
       else if rel_point.x + rel_point.y > 0.5 then (⟨-1, 1⟩ : Index)
       else (⟨0, 0⟩ : Index))
  else if strip = 1 then
    (⟨rustDiv (-(4 * skew_index.x + 2 * skew_index.y + 1)) 3,
      rustDiv (2 * skew_index.x + 4 * skew_index.y - 1) 3⟩ : Index) +
      (if rel_point.x > 0 ∧ rel_point.y < 0 then (⟨0, 0⟩ : Index)
       else if rel_point.x + rel_point.y < 0 then (⟨1, 0⟩ : Index)
       else (⟨0, 1⟩ : Index))
  else
    (⟨rustDiv (-(4 * skew_index.x + 2 * skew_index.y - 1)) 3,
      rustDiv (2 * skew_index.x + 4 * skew_index.y + 1) 3⟩ : Index) +
      (if rel_point.x < 0 ∧ rel_point.y > 0 then (⟨0, 0⟩ : Index)
       else if rel_point.x + rel_point.y < 0 then (⟨0, -1⟩ : Index)
       else (⟨-1, 0⟩ : Index))

/-- `coordinate_to_tile` (map.rs lines 15-78). -/
noncomputable def coordinate_to_tile (point : Point) : Index :=
  tile_from_skew (skew_point_of point)

/-- `tile_to_coordinate` (map.rs lines 86-89). -/
noncomputable def tile_to_coordinate (index : Index) : Point :=
  (⟨-1.5 * INV_SQRT_3, 0.5⟩ : Point) * (index.x : ℝ) +
    (⟨0, 1⟩ : Point) * (index.y : ℝ)

/-- `coordinate_to_chunk` (map.rs lines 97-107); `N` is `CHUNK_SIZE`. -/
noncomputable def coordinate_to_chunk (N : ℕ) (point : Point) : Index :=
  let factor : ℝ := INV_SQRT_3 / (N : ℝ)
  let new_point : Point := (⟨-point.y, point.x⟩ : Point) * factor
  let index := coordinate_to_tile new_point
  ⟨index.y, index.x⟩

/-- `chunk_to_coordinate` (map.rs lines 115-118); `N` is `CHUNK_SIZE`. -/
noncomputable def chunk_to_coordinate (N : ℕ) (index : Index) : Point :=
  (⟨3.0 * INV_SQRT_3, 0.0⟩ : Point) * (((N : ℤ) * index.x : ℤ) : ℝ) +
    (⟨1.5 * INV_SQRT_3, 1.5⟩ : Point) * (((N : ℤ) * index.y : ℤ) : ℝ)

theorem sqrt3_pos : (0 : ℝ) < Real.sqrt 3 := Real.sqrt_pos.mpr (by norm_num)

theorem sqrt3_mul_self : Real.sqrt 3 * Real.sqrt 3 = 3 :=
  Real.mul_self_sqrt (by norm_num)

theorem floor_intCast_add_half (n : ℤ) : ⌊(n : ℝ) + 0.5⌋ = n := by
  rw [show (0.5 : ℝ) = 1 / 2 by norm_num, Int.floor_int_add]
  norm_num

/-- Normalisation of the Rust remainder: the `if strip < 0 { strip + 3 }`
fix-up in `coordinate_to_tile` turns the truncated remainder into the
Euclidean remainder mod 3. -/
theorem tmod_fixup (x : ℤ) :
    (if rustMod x 3 < 0 then rustMod x 3 + 3 else rustMod x 3) = x % 3 := by
  unfold rustMod
  rcases le_or_lt 0 x with hx | hx
  · rw [Int.tmod_eq_emod hx (by norm_num)]
    have h0 : 0 ≤ x % 3 := Int.emod_nonneg x (by norm_num)
    omega
  · have h1 := Int.tdiv_add_tmod x 3
    have h2 := Int.tdiv_add_tmod (-x) 3
    have h3 : (-x).tdiv 3 = -(x.tdiv 3) := Int.neg_tdiv x 3
    have h4 : (-x).tmod 3 = (-x) % 3 := Int.tmod_eq_emod (by omega) (by norm_num)
    have h5 : 0 ≤ (-x) % 3 := Int.emod_nonneg _ (by norm_num)
    have h6 : (-x) % 3 < 3 := Int.emod_lt_of_pos _ (by norm_num)
    omega

theorem rustDiv_mul_three (k : ℤ) : rustDiv (3 * k) 3 = k := by
  unfold rustDiv
  exact Int.mul_tdiv_cancel_left k (by norm_num)

/-- Core round-trip lemma: the tile-resolution body, applied to the skewed
coordinates of the center of tile `(u, v)`, recovers `(u, v)`. -/
theorem tile_from_skew_center (u v : ℤ) :
    tile_from_skew ⟨-(u : ℝ) - (v : ℝ) / 2, (u : ℝ) / 2 + (v : ℝ)⟩ = ⟨u, v⟩ := by
  obtain ⟨d, hu | hu⟩ := Int.even_or_odd' u <;> obtain ⟨c, hv | hv⟩ := Int.even_or_odd' v
  · -- u = 2d, v = 2c : strip 0, rel = (0, 0)
    have hfx : ⌊(-(u : ℝ) - (v : ℝ) / 2) + 0.5⌋ = -u - c := by
      rw [show (-(u : ℝ) - (v : ℝ) / 2) = ((-u - c : ℤ) : ℝ) by push_cast [hv]; ring]
      exact floor_intCast_add_half _
    have hfy : ⌊((u : ℝ) / 2 + (v : ℝ)) + 0.5⌋ = d + v := by
      rw [show ((u : ℝ) / 2 + (v : ℝ)) = ((d + v : ℤ) : ℝ) by push_cast [hu]; ring]
      exact floor_intCast_add_half _
    simp only [tile_from_skew, Point.sub_def, hfx, hfy, tmod_fixup]
    have hs : ((d + v) - (-u - c)) % 3 = 0 := by omega
    rw [hs]
    have hr1 : -(u : ℝ) - (v : ℝ) / 2 - ((-u - c : ℤ) : ℝ) = 0 := by
      push_cast [hv]; ring
    have hr2 : (u : ℝ) / 2 + (v : ℝ) - ((d + v : ℤ) : ℝ) = 0 := by
      push_cast [hu]; ring
    rw [hr1, hr2,
      show -(4 * (-u - c) + 2 * (d + v)) = 3 * u by omega,
      show 2 * (-u - c) + 4 * (d + v) = 3 * v by omega,
      rustDiv_mul_three, rustDiv_mul_three]
    norm_num [Index.index_add_def, Index.mk.injEq]
  · -- u = 2d, v = 2c + 1 : strip 1, rel = (-1/2, 0)
    have hfx : ⌊(-(u : ℝ) - (v : ℝ) / 2) + 0.5⌋ = -u - c := by
      rw [show (-(u : ℝ) - (v : ℝ) / 2 + 0.5) = ((-u - c : ℤ) : ℝ) by push_cast [hv]; ring]
      exact Int.floor_intCast _
    have hfy : ⌊((u : ℝ) / 2 + (v : ℝ)) + 0.5⌋ = d + v := by
      rw [show ((u : ℝ) / 2 + (v : ℝ)) = ((d + v : ℤ) : ℝ) by push_cast [hu]; ring]
      exact floor_intCast_add_half _
    simp only [tile_from_skew, Point.sub_def, hfx, hfy, tmod_fixup]
    have hs : ((d + v) - (-u - c)) % 3 = 1 := by omega
    rw [hs]
    have hr1 : -(u : ℝ) - (v : ℝ) / 2 - ((-u - c : ℤ) : ℝ) = -(1 / 2) := by
      push_cast [hv]; ring
    have hr2 : (u : ℝ) / 2 + (v : ℝ) - ((d + v : ℤ) : ℝ) = 0 := by
      push_cast [hu]; ring
    rw [hr1, hr2,
      show -(4 * (-u - c) + 2 * (d + v) + 1) = 3 * (u - 1) by omega,
      show 2 * (-u - c) + 4 * (d + v) - 1 = 3 * v by omega,
      rustDiv_mul_three, rustDiv_mul_three]
    norm_num [Index.index_add_def, Index.mk.injEq]
  · -- u = 2d + 1, v = 2c : strip 2, rel = (0, -1/2)
    have hfx : ⌊(-(u : ℝ) - (v : ℝ) / 2) + 0.5⌋ = -u - c := by
      rw [show (-(u : ℝ) - (v : ℝ) / 2) = ((-u - c : ℤ) : ℝ) by push_cast [hv]; ring]
      exact floor_intCast_add_half _
    have hfy : ⌊((u : ℝ) / 2 + (v : ℝ)) + 0.5⌋ = d + v + 1 := by
      rw [show ((u : ℝ) / 2 + (v : ℝ) + 0.5) = ((d + v + 1 : ℤ) : ℝ) by push_cast [hu]; ring]
      exact Int.floor_intCast _
    simp only [tile_from_skew, Point.sub_def, hfx, hfy, tmod_fixup]
    have hs : ((d + v + 1) - (-u - c)) % 3 = 2 := by omega
    rw [hs]
    have hr1 : -(u : ℝ) - (v : ℝ) / 2 - ((-u - c : ℤ) : ℝ) = 0 := by
      push_cast [hv]; ring
    have hr2 : (u : ℝ) / 2 + (v : ℝ) - ((d + v + 1 : ℤ) : ℝ) = -(1 / 2) := by
      push_cast [hu]; ring
    rw [hr1, hr2,
      show -(4 * (-u - c) + 2 * (d + v + 1) - 1) = 3 * u by omega,
      show 2 * (-u - c) + 4 * (d + v + 1) + 1 = 3 * (v + 1) by omega,
      rustDiv_mul_three, rustDiv_mul_three]
    norm_num [Index.index_add_def, Index.mk.injEq]
  · -- u = 2d + 1, v = 2c + 1 : strip 0, rel = (-1/2, -1/2)
    have hfx : ⌊(-(u : ℝ) - (v : ℝ) / 2) + 0.5⌋ = -u - c := by
      rw [show (-(u : ℝ) - (v : ℝ) / 2 + 0.5) = ((-u - c : ℤ) : ℝ) by push_cast [hv]; ring]
      exact Int.floor_intCast _
    have hfy : ⌊((u : ℝ) / 2 + (v : ℝ)) + 0.5⌋ = d + v + 1 := by
      rw [show ((u : ℝ) / 2 + (v : ℝ) + 0.5) = ((d + v + 1 : ℤ) : ℝ) by push_cast [hu]; ring]
      exact Int.floor_intCast _
    simp only [tile_from_skew, Point.sub_def, hfx, hfy, tmod_fixup]
    have hs : ((d + v + 1) - (-u - c)) % 3 = 0 := by omega
    rw [hs]
    have hr1 : -(u : ℝ) - (v : ℝ) / 2 - ((-u - c : ℤ) : ℝ) = -(1 / 2) := by
      push_cast [hv]; ring
    have hr2 : (u : ℝ) / 2 + (v : ℝ) - ((d + v + 1 : ℤ) : ℝ) = -(1 / 2) := by
      push_cast [hu]; ring
    rw [hr1, hr2,
      show -(4 * (-u - c) + 2 * (d + v + 1)) = 3 * (u - 1) by omega,
      show 2 * (-u - c) + 4 * (d + v + 1) = 3 * (v + 1) by omega,
      rustDiv_mul_three, rustDiv_mul_three]
    norm_num [Index.index_add_def, Index.mk.injEq]

theorem skew_of_tile_center (i : Index) :
    skew_point_of (tile_to_coordinate i) =
      ⟨-(i.x : ℝ) - (i.y : ℝ) / 2, (i.x : ℝ) / 2 + (i.y : ℝ)⟩ := by
  have hs := sqrt3_mul_self
  have hne : Real.sqrt 3 ≠ 0 := ne_of_gt sqrt3_pos
  simp only [skew_point_of, tile_to_coordinate, SQRT_3, INV_SQRT_3,
    Point.point_smul_def, Point.point_add_def, Point.mk.injEq]
  constructor
  · field_simp
    nlinarith [hs]
  · ring

/-- C1: converting any integer tile index to its center coordinate with
`tile_to_coordinate` and back with `coordinate_to_tile` recovers the index. -/
theorem coordinate_to_tile_round_trip (i : Index) :
    coordinate_to_tile (tile_to_coordinate i) = i := by
  rw [coordinate_to_tile, skew_of_tile_center, tile_from_skew_center]

theorem skew_of_chunk_center (N : ℕ) (hN : 0 < N) (i : Index) :
    skew_point_of
        ((⟨-(chunk_to_coordinate N i).y, (chunk_to_coordinate N i).x⟩ : Point) *
          (INV_SQRT_3 / (N : ℝ))) =
      ⟨-(i.y : ℝ) - (i.x : ℝ) / 2, (i.y : ℝ) / 2 + (i.x : ℝ)⟩ := by
  have hs := sqrt3_mul_self
  have hne : Real.sqrt 3 ≠ 0 := ne_of_gt sqrt3_pos
  have hNne : (N : ℝ) ≠ 0 := Nat.cast_ne_zero.mpr hN.ne'
  simp only [skew_point_of, chunk_to_coordinate, SQRT_3, INV_SQRT_3,
    Point.point_smul_def, Point.point_add_def, Point.mk.injEq]
  constructor
  · field_simp
    linear_combination ((N : ℝ) ^ 2 * Real.sqrt 3 * ((i.x : ℝ) + 0.5 * (i.y : ℝ))) * hs
  · field_simp
    linear_combination (-(N : ℝ) * (2 * (i.x : ℝ) + (i.y : ℝ))) * hs

/-- C5: converting any integer chunk index to its center coordinate with
`chunk_to_coordinate` and back with `coordinate_to_chunk` recovers the index
(for any positive `CHUNK_SIZE`). -/
theorem coordinate_to_chunk_round_trip (N : ℕ) (hN : 0 < N) (i : Index) :
    coordinate_to_chunk N (chunk_to_coordinate N i) = i := by
  simp only [coordinate_to_chunk, coordinate_to_tile]
  rw [skew_of_chunk_center N hN, tile_from_skew_center]

/-- Witness for C5 at the concrete chunk size 1 and index (2, -3). -/
theorem coordinate_to_chunk_round_trip_witness :
    0 < 1 ∧ coordinate_to_chunk 1 (chunk_to_coordinate 1 ⟨2, -3⟩) = ⟨2, -3⟩ :=
  ⟨by decide, coordinate_to_chunk_round_trip 1 (by decide) ⟨2, -3⟩⟩

/-- A 2x2 real matrix (`types.rs`, `Matrix`); `vRC` is `values[R][C]`. -/
structure Matrix where
  v00 : ℝ
  v01 : ℝ
  v10 : ℝ
  v11 : ℝ

/-- `Matrix::det` (types.rs lines 540-542). -/
def Matrix.det (m : Matrix) : ℝ := m.v00 * m.v11 - m.v01 * m.v10

/-- `Matrix::inv` (types.rs lines 523-537); division by a zero determinant is
a debug-only panic in the source and is modelled by total real division. -/
noncomputable def Matrix.inv (m : Matrix) : Matrix :=
  let d := m.v00 * m.v11 - m.v01 * m.v10
  ⟨m.v11 / d, -m.v01 / d, -m.v10 / d, m.v00 / d⟩

/-- `Matrix::eigenvalues` (types.rs lines 545-560): the two eigenvalues,
largest first. -/
noncomputable def Matrix.eigenvalues (m : Matrix) : ℝ × ℝ :=
  let d := (m.v00 + m.v11) * (m.v00 + m.v11) - 4 * m.det
  let sqrt_d := Real.sqrt d
  (0.5 * ((m.v00 + m.v11) + sqrt_d), 0.5 * ((m.v00 + m.v11) - sqrt_d))

instance : Mul Matrix :=
  ⟨fun a b =>
    ⟨a.v00 * b.v00 + a.v01 * b.v10, a.v00 * b.v01 + a.v01 * b.v11,
     a.v10 * b.v00 + a.v11 * b.v10, a.v10 * b.v01 + a.v11 * b.v11⟩⟩

instance : HMul Matrix Point Point :=
  ⟨fun m p => ⟨m.v00 * p.x + m.v01 * p.y, m.v10 * p.x + m.v11 * p.y⟩⟩

instance : HMul Matrix ℝ Matrix :=
  ⟨fun m r => ⟨r * m.v00, r * m.v01, r * m.v10, r * m.v11⟩⟩

theorem Matrix.matrix_mul_def (a b : Matrix) :
    a * b =
      ⟨a.v00 * b.v00 + a.v01 * b.v10, a.v00 * b.v01 + a.v01 * b.v11,
       a.v10 * b.v00 + a.v11 * b.v10, a.v10 * b.v01 + a.v11 * b.v11⟩ := rfl

theorem Matrix.mulPoint_def (m : Matrix) (p : Point) :
    m * p = ⟨m.v00 * p.x + m.v01 * p.y, m.v10 * p.x + m.v11 * p.y⟩ := rfl

theorem Matrix.matrix_smul_def (m : Matrix) (r : ℝ) :
    m * r = ⟨r * m.v00, r * m.v01, r * m.v10, r * m.v11⟩ := rfl

/-- A 2D affine transform `y = R (x - c)` (`types.rs`, `Transform2D`). -/
structure Transform2D where
  center_transform : Matrix
  center : Point

/-- `Mul<Transform2D> for Transform2D` (types.rs lines 801-814):
`t2 * t1` has linear part `r2 * r1` and center `c1 + r1⁻¹ * c2`. -/
noncomputable instance : Mul Transform2D :=
  ⟨fun s rhs =>
    ⟨s.center_transform * rhs.center_transform,
     rhs.center + rhs.center_transform.inv * s.center⟩⟩

/-- `Mul<Point> for Transform2D` (types.rs lines 861-867). -/
instance : HMul Transform2D Point Point :=
  ⟨fun t p => t.center_transform * (p - t.center)⟩

theorem Transform2D.transform_mul_def (s rhs : Transform2D) :
    s * rhs =
      ⟨s.center_transform * rhs.center_transform,
       rhs.center + rhs.center_transform.inv * s.center⟩ := rfl

theorem Transform2D.apply_def (t : Transform2D) (p : Point) :
    t * p = t.center_transform * (p - t.center) := rfl

/-- C9: for transforms `t1`, `t2` with `t1`'s linear part invertible,
applying the composed transform `t2 * t1` to any point equals applying `t1`
and then `t2`, in exact real arithmetic. -/
theorem transform_mul_apply_assoc (t1 t2 : Transform2D) (x : Point)
    (h : t1.center_transform.det ≠ 0) :
    (t2 * t1) * x = t2 * (t1 * x) := by
  obtain ⟨⟨a, b, c, d⟩, ⟨cx, cy⟩⟩ := t1
  obtain ⟨⟨a2, b2, c2, d2⟩, ⟨cx2, cy2⟩⟩ := t2
  simp only [Matrix.det] at h
  simp only [Transform2D.transform_mul_def, Transform2D.apply_def, Matrix.matrix_mul_def,
    Matrix.inv, Matrix.mulPoint_def, Point.point_add_def, Point.sub_def,
    Point.mk.injEq]
  constructor
  · field_simp
    ring
  · field_simp
    ring

/-- Witness for C9 at concrete transforms and point. -/
theorem transform_mul_apply_assoc_witness :
    (⟨⟨1, 0, 0, 1⟩, ⟨5, 7⟩⟩ : Transform2D).center_transform.det ≠ 0 ∧
      ((⟨⟨2, 0, 0, 3⟩, ⟨1, 1⟩⟩ : Transform2D) * (⟨⟨1, 0, 0, 1⟩, ⟨5, 7⟩⟩ : Transform2D)) *
          (⟨2, 3⟩ : Point) =
        (⟨⟨2, 0, 0, 3⟩, ⟨1, 1⟩⟩ : Transform2D) *
          ((⟨⟨1, 0, 0, 1⟩, ⟨5, 7⟩⟩ : Transform2D) * (⟨2, 3⟩ : Point)) :=
  ⟨by norm_num [Matrix.det],
   transform_mul_apply_assoc ⟨⟨1, 0, 0, 1⟩, ⟨5, 7⟩⟩ ⟨⟨2, 0, 0, 3⟩, ⟨1, 1⟩⟩ ⟨2, 3⟩
     (by norm_num [Matrix.det])⟩

/-- A 2D Gaussian (`types.rs`, `Gaussian`): normalisation, mean, and half the
inverse covariance matrix. -/
structure Gaussian where
  norm : ℝ
  mean : Point
  matrix : Matrix

/-- `Gaussian::new` (types.rs lines 914-920). -/
noncomputable def Gaussian.new (norm : ℝ) (mean : Point) (cov : Matrix) : Gaussian :=
  ⟨norm, mean, cov.inv * (0.5 : ℝ)⟩

/-- `Gaussian::evaluate` (types.rs lines 927-938). -/
noncomputable def Gaussian.evaluate (g : Gaussian) (offset : Point)
    (points : List Point) : List ℝ :=
  let coeff := g.norm * Real.sqrt g.matrix.det / Real.pi
  points.map fun point =>
    let rel_point := (point + offset) - g.mean
    let exponent := (-rel_point) * (g.matrix * rel_point)
    coeff * Real.exp exponent

/-- `Gaussian::get_covariance` (types.rs lines 941-943). -/
noncomputable def Gaussian.get_covariance (g : Gaussian) : Matrix :=
  (g.matrix * (2 : ℝ)).inv

/-- A resource source (`map.rs`, `Source`). -/
inductive Source where
  | Gaussian (g : GE.Gaussian)

/-- `Source::range` (map.rs lines 691-709): the debug-only negative-variance
panic is omitted; the formula is embedded as written. -/
noncomputable def Source.range (s : Source) : ℝ :=
  match s with
  | .Gaussian gaussian =>
    let variances := gaussian.get_covariance.eigenvalues
    Real.sqrt (variances.1 *
      (gaussian.norm * gaussian.norm * 256.0 * 256.0 /
        (4.0 * Real.pi * Real.pi * variances.1 * variances.2)))

/-- `Source::center` (map.rs lines 712-716). -/
def Source.center (s : Source) : Point :=
  match s with
  | .Gaussian gaussian => gaussian.mean

/-- `Source::evaluate` (map.rs lines 723-728). -/
noncomputable def Source.evaluate (s : Source) (offset : Point)
    (points : List Point) : List ℝ :=
  match s with
  | .Gaussian gaussian => gaussian.evaluate offset points

/-- The concrete Gaussian with norm `2π`, mean the origin and identity
covariance used to exhibit the `Source::range` divergence. -/
noncomputable def c4Gaussian : Gaussian :=
  Gaussian.new (2 * Real.pi) ⟨0, 0⟩ ⟨1, 0, 0, 1⟩

theorem c4Gaussian_matrix : c4Gaussian.matrix = ⟨1 / 2, 0, 0, 1 / 2⟩ := by
  simp only [c4Gaussian, Gaussian.new, Matrix.inv, Matrix.matrix_smul_def, Matrix.mk.injEq]
  norm_num

theorem c4Gaussian_norm : c4Gaussian.norm = 2 * Real.pi := rfl

theorem c4Gaussian_mean : c4Gaussian.mean = ⟨0, 0⟩ := rfl


theorem c4_coeff_lit :
    2 * Real.pi * Real.sqrt (⟨1 / 2, 0, 0, 1 / 2⟩ : Matrix).det / Real.pi = 1 := by
  rw [show (⟨1 / 2, 0, 0, 1 / 2⟩ : Matrix).det = ((1 : ℝ) / 2) ^ 2 by
    simp [Matrix.det]; norm_num]
  rw [Real.sqrt_sq (by norm_num)]
  have hπ : Real.pi ≠ 0 := Real.pi_ne_zero
  field_simp

/-- C4 (code bug): for the Gaussian source with norm `2π`, mean the origin
and identity covariance, `Source::range` returns 256, yet the Gaussian's
value at distance 256 along the (unit) major axis is `exp (-32768)`, which is
strictly below `1/256` of the peak value 1; the radius at which the value
actually drops to `1/256` of the peak is `√(2 ln 256) < 256`.  The code's
formula omits the logarithm that its own comment ("the range at which value
of the Gaussian is 1/256") requires. -/
theorem source_range_missing_log :
    Source.range (Source.Gaussian c4Gaussian) = 256 ∧
    Gaussian.evaluate c4Gaussian ⟨0, 0⟩ [⟨0, 0⟩] = [1] ∧
    Gaussian.evaluate c4Gaussian ⟨0, 0⟩ [⟨256, 0⟩] = [Real.exp (-32768)] ∧
    Real.exp (-32768) < 1 / 256 ∧
    Gaussian.evaluate c4Gaussian ⟨0, 0⟩ [⟨Real.sqrt (2 * Real.log 256), 0⟩] =
      [1 / 256] ∧
    Real.sqrt (2 * Real.log 256) < 256 := by
  have hπ : Real.pi ≠ 0 := Real.pi_ne_zero
  have hlog0 : (0 : ℝ) ≤ 2 * Real.log 256 := by
    have := Real.log_nonneg (show (1 : ℝ) ≤ 256 by norm_num)
    linarith
  have hcov : c4Gaussian.get_covariance = ⟨1, 0, 0, 1⟩ := by
    rw [Gaussian.get_covariance, c4Gaussian_matrix]
    simp only [Matrix.matrix_smul_def, Matrix.inv, Matrix.mk.injEq]
    norm_num
  refine ⟨?_, ?_, ?_, ?_, ?_, ?_⟩
  · rw [Source.range, hcov]
    rw [show (⟨1, 0, 0, 1⟩ : Matrix).eigenvalues = (1, 1) by
      simp only [Matrix.eigenvalues, Matrix.det]
      norm_num [Real.sqrt_zero]]
    rw [c4Gaussian_norm]
    rw [show (1 : ℝ) * (2 * Real.pi * (2 * Real.pi) * 256.0 * 256.0 /
        (4.0 * Real.pi * Real.pi * 1 * 1)) = 256 ^ 2 by field_simp; ring]
    exact Real.sqrt_sq (by norm_num)
  · simp only [Gaussian.evaluate, List.map_cons, List.map_nil, c4Gaussian_mean,
      c4Gaussian_matrix, c4Gaussian_norm, Point.point_add_def, Point.sub_def,
      Point.neg_def, Point.dot_def, Matrix.mulPoint_def, List.cons.injEq, and_true]
    rw [c4_coeff_lit, one_mul]
    norm_num [Real.exp_zero]
  · simp only [Gaussian.evaluate, List.map_cons, List.map_nil, c4Gaussian_mean,
      c4Gaussian_matrix, c4Gaussian_norm, Point.point_add_def, Point.sub_def,
      Point.neg_def, Point.dot_def, Matrix.mulPoint_def, List.cons.injEq, and_true]
    rw [c4_coeff_lit, one_mul]
    norm_num
  · have h : Real.log 256 ≤ 255 := by
      have := Real.log_le_sub_one_of_pos (show (0 : ℝ) < 256 by norm_num)
      linarith
    have h2 : (-32768 : ℝ) < Real.log (1 / 256) := by
      rw [show (1 / 256 : ℝ) = 256⁻¹ by norm_num, Real.log_inv]
      linarith
    calc Real.exp (-32768) < Real.exp (Real.log (1 / 256)) := Real.exp_lt_exp.mpr h2
    _ = 1 / 256 := Real.exp_log (by norm_num)
  · simp only [Gaussian.evaluate, List.map_cons, List.map_nil, c4Gaussian_mean,
      c4Gaussian_matrix, c4Gaussian_norm, Point.point_add_def, Point.sub_def,
      Point.neg_def, Point.dot_def, Matrix.mulPoint_def, List.cons.injEq, and_true]
    rw [c4_coeff_lit, one_mul]
    rw [show (1 / 256 : ℝ) = Real.exp (-Real.log 256) by
      rw [Real.exp_neg, Real.exp_log (by norm_num : (0 : ℝ) < 256)]
      norm_num]
    congr 1
    have hsq : Real.sqrt (2 * Real.log 256) * Real.sqrt (2 * Real.log 256) =
        2 * Real.log 256 := Real.mul_self_sqrt hlog0
    nlinarith [hsq]
  · have h : Real.log 256 ≤ 255 := by
      have := Real.log_le_sub_one_of_pos (show (0 : ℝ) < 256 by norm_num)
      linarith
    calc Real.sqrt (2 * Real.log 256) ≤ Real.sqrt 510 :=
          Real.sqrt_le_sqrt (by linarith)
    _ < 256 := by
          rw [show (256 : ℝ) = Real.sqrt (256 ^ 2) from (Real.sqrt_sq (by norm_num)).symm]
          exact Real.sqrt_lt_sqrt (by norm_num) (by norm_num)

/-- Location of an edge chunk (`map.rs`, `ChunkEdgeType`). -/
inductive ChunkEdgeType where
  | Top
  | Middle
  | Bottom
deriving DecidableEq

/-- `ChunkEdgeType::id` (map.rs lines 521-527). -/
def ChunkEdgeType.id : ChunkEdgeType → ℕ
  | .Top => 0
  | .Middle => 1
  | .Bottom => 2

/-- Location of a vertex chunk (`map.rs`, `ChunkVertexType`). -/
inductive ChunkVertexType where
  | Top
  | Bottom
deriving DecidableEq

/-- `ChunkVertexType::id` (map.rs lines 552-557): both variants yield 0. -/
def ChunkVertexType.id : ChunkVertexType → ℕ
  | .Top => 0
  | .Bottom => 0

/-- The type of a chunk (`map.rs`, `ChunkType`). -/
inductive ChunkType where
  | Bulk
  | Edge (e : ChunkEdgeType)
  | Vertex (v : ChunkVertexType)
deriving DecidableEq

/-- `ChunkType::get_tile_count` (map.rs lines 488-494); `N` is `CHUNK_SIZE`. -/
def ChunkType.get_tile_count (N : ℕ) : ChunkType → ℕ
  | .Bulk => N * (N - 1) / 2 * 6 + 1
  | .Edge _ => N - 1
  | .Vertex _ => 1

/-- One entry of the `CHUNK_CENTERS_BULK` table (map.rs lines 570-615). -/
noncomputable def bulkCenter (id : ℕ) : Point :=
  if id = 0 then ⟨0, 0⟩
  else
    let layer : ℕ :=
      (⌊0.5 * (1 + Real.sqrt (1 + 4 / 3 * ((id : ℝ) - 1)))⌋).toNat
    let rel_id := id - (3 * layer * (layer - 1) + 1)
    let slice_id := rel_id / layer
    let location_id := rel_id - slice_id * layer
    let sd : Point × Point :=
      match slice_id with
      | 0 => (⟨0, 1⟩, ⟨-1.5 * INV_SQRT_3, -0.5⟩)
      | 1 => (⟨-1.5 * INV_SQRT_3, 0.5⟩, ⟨0, -1⟩)
      | 2 => (⟨-1.5 * INV_SQRT_3, -0.5⟩, ⟨1.5 * INV_SQRT_3, -0.5⟩)
      | 3 => (⟨0, -1⟩, ⟨1.5 * INV_SQRT_3, 0.5⟩)
      | 4 => (⟨1.5 * INV_SQRT_3, -0.5⟩, ⟨0, 1⟩)
      | _ => (⟨1.5 * INV_SQRT_3, 0.5⟩, ⟨-1.5 * INV_SQRT_3, 0.5⟩)
    sd.1 * (layer : ℝ) + sd.2 * (location_id : ℝ)

/-- `CHUNK_CENTERS_BULK` (map.rs lines 570-615). -/
noncomputable def CHUNK_CENTERS_BULK (N : ℕ) : List Point :=
  (List.range (3 * N * (N - 1) + 1)).map bulkCenter

/-- `CHUNK_CENTERS_EDGE_TOP` (map.rs lines 616-623). -/
noncomputable def CHUNK_CENTERS_EDGE_TOP (N : ℕ) : List Point :=
  (List.range (N - 1)).map fun id =>
    ⟨-1.5 * INV_SQRT_3 * ((id + 1 : ℕ) : ℝ), (N : ℝ) - 0.5 * ((id + 1 : ℕ) : ℝ)⟩

/-- `CHUNK_CENTERS_EDGE_MIDDLE` (map.rs lines 624-631). -/
noncomputable def CHUNK_CENTERS_EDGE_MIDDLE (N : ℕ) : List Point :=
  (List.range (N - 1)).map fun id =>
    ⟨-1.5 * (N : ℝ) * INV_SQRT_3, 0.5 * (N : ℝ) - ((id + 1 : ℕ) : ℝ)⟩

/-- `CHUNK_CENTERS_EDGE_BOTTOM` (map.rs lines 632-639). -/
noncomputable def CHUNK_CENTERS_EDGE_BOTTOM (N : ℕ) : List Point :=
  (List.range (N - 1)).map fun id =>
    ⟨-1.5 * ((N - (id + 1) : ℕ) : ℝ) * INV_SQRT_3, -0.5 * ((N + (id + 1) : ℕ) : ℝ)⟩

/-- `CHUNK_CENTERS_VERTEX_TOP` (map.rs lines 640-645). -/
noncomputable def CHUNK_CENTERS_VERTEX_TOP (N : ℕ) : List Point :=
  [⟨-1.5 * (N : ℝ) * INV_SQRT_3, 0.5 * (N : ℝ)⟩]

/-- `CHUNK_CENTERS_VERTEX_BOTTOM` (map.rs lines 646-651). -/
noncomputable def CHUNK_CENTERS_VERTEX_BOTTOM (N : ℕ) : List Point :=
  [⟨-1.5 * (N : ℝ) * INV_SQRT_3, -0.5 * (N : ℝ)⟩]

/-- `ChunkEdgeType::get_tile_centers` (map.rs lines 532-538). -/
noncomputable def ChunkEdgeType.get_tile_centers (N : ℕ) : ChunkEdgeType → List Point
  | .Top => CHUNK_CENTERS_EDGE_TOP N
  | .Middle => CHUNK_CENTERS_EDGE_MIDDLE N
  | .Bottom => CHUNK_CENTERS_EDGE_BOTTOM N

/-- `ChunkVertexType::get_tile_centers` (map.rs lines 562-567). -/
noncomputable def ChunkVertexType.get_tile_centers (N : ℕ) : ChunkVertexType → List Point
  | .Top => CHUNK_CENTERS_VERTEX_TOP N
  | .Bottom => CHUNK_CENTERS_VERTEX_BOTTOM N

/-- `ChunkType::get_tile_centers` (map.rs lines 499-505). -/
noncomputable def ChunkType.get_tile_centers (N : ℕ) : ChunkType → List Point
  | .Bulk => CHUNK_CENTERS_BULK N
  | .Edge e => e.get_tile_centers N
  | .Vertex v => v.get_tile_centers N

/-- The three per-tile resource values (`map.rs`, `Resources`). -/
structure Resources where
  nutrients : ℝ
  energy : ℝ
  water : ℝ

/-- A single map tile (`map.rs`, `Tile`). -/
structure Tile where
  base_resources : Resources

/-- `Tile::new` (map.rs lines 666-668). -/
def Tile.new (base_resources : Resources) : Tile := ⟨base_resources⟩

/-- A chunk of tiles (`map.rs`, `Chunk`). -/
structure Chunk where
  tiles : List Tile
  chunk_type : ChunkType
  index : ℕ
  modified : Bool

/-- `NewChunkError` (map.rs lines 731-736): received and expected counts. -/
inductive NewChunkError where
  | InvalidSize (received : ℕ) (expected : ℕ)
deriving DecidableEq

/-- `Chunk::new` (map.rs lines 399-417). -/
def Chunk.new (N : ℕ) (chunk_type : ChunkType) (index : ℕ) (tiles : List Tile) :
    Except NewChunkError Chunk :=
  if tiles.length ≠ chunk_type.get_tile_count N then
    .error (.InvalidSize tiles.length (chunk_type.get_tile_count N))
  else
    .ok ⟨tiles, chunk_type, index, true⟩

/-- `Chunk::new_empty` (map.rs lines 426-442); the `expect` cannot fire since
the generated tile list has exactly the required length. -/
def Chunk.new_empty (N : ℕ) (chunk_type : ChunkType) (index : ℕ) : Chunk :=
  let tiles := (List.range (chunk_type.get_tile_count N)).map fun _ =>
    Tile.new ⟨0, 0, 0⟩
  match Chunk.new N chunk_type index tiles with
  | .ok c => c
  | .error _ => ⟨tiles, chunk_type, index, true⟩

/-- `Chunk::is_modified` (map.rs lines 445-447). -/
def Chunk.is_modified (c : Chunk) : Bool := c.modified

/-- `Chunk::resolved` (map.rs lines 450-452), as a state transformer. -/
def Chunk.resolved (c : Chunk) : Chunk := { c with modified := false }

/-- The cyclic single-superchunk map layout (`map.rs`, `MapCyclic`):
one bulk chunk, three edge chunks, two vertex chunks. -/
structure MapCyclic where
  chunks_bulk : Chunk
  chunks_edge : Fin 3 → Chunk
  chunks_vertex : Fin 2 → Chunk

/-- `MapData::get_index` for `MapCyclic` (map.rs lines 132-134): always 0. -/
def MapCyclic.get_index (_m : MapCyclic) (_chunk_type : ChunkType)
    (_coordinates : Index) : Option ℕ := some 0

def edgeFin (e : ChunkEdgeType) : Fin 3 := ⟨e.id, by cases e <;> decide⟩

def vertexFin (v : ChunkVertexType) : Fin 2 := ⟨v.id, by cases v <;> decide⟩

/-- `MapData::get_chunk` for `MapCyclic` (map.rs lines 136-142): the `index`
argument is ignored, and the chunk is selected by the type's `id`. -/
def MapCyclic.get_chunk (m : MapCyclic) (chunk_type : ChunkType) (_index : ℕ) :
    Chunk :=
  match chunk_type with
  | .Bulk => m.chunks_bulk
  | .Edge e => m.chunks_edge (edgeFin e)
  | .Vertex v => m.chunks_vertex (vertexFin v)

/-- `MapData::get_chunk_mut` for `MapCyclic` (map.rs lines 144-150), modelled
as an in-place modification of the selected chunk. -/
def MapCyclic.modifyChunk (m : MapCyclic) (chunk_type : ChunkType) (_index : ℕ)
    (f : Chunk → Chunk) : MapCyclic :=
  match chunk_type with
  | .Bulk => { m with chunks_bulk := f m.chunks_bulk }
  | .Edge e =>
    { m with chunks_edge :=
        Function.update m.chunks_edge (edgeFin e) (f (m.chunks_edge (edgeFin e))) }
  | .Vertex v =>
    { m with chunks_vertex :=
        Function.update m.chunks_vertex (vertexFin v) (f (m.chunks_vertex (vertexFin v))) }

/-- `MapData::get_chunks` for `MapCyclic` (map.rs lines 152-157): the bulk
chunk, the three edge chunks, then the two vertex chunks. -/
def MapCyclic.get_chunks (m : MapCyclic) : List Chunk :=
  [m.chunks_bulk, m.chunks_edge 0, m.chunks_edge 1, m.chunks_edge 2,
   m.chunks_vertex 0, m.chunks_vertex 1]

/-- `MapData::get_chunks_mut` for `MapCyclic` (map.rs lines 159-164), modelled
as applying an update to every chunk. -/
def MapCyclic.mapChunks (f : Chunk → Chunk) (m : MapCyclic) : MapCyclic :=
  ⟨f m.chunks_bulk, fun j => f (m.chunks_edge j), fun j => f (m.chunks_vertex j)⟩

/-- The per-kind source lists (`map.rs`, `SourceMap`). -/
structure SourceMap where
  nutrients : List Source
  energy : List Source
  water : List Source

/-- The three resource kinds; stands for the accessor-closure pairs passed to
`populate_resource` (map.rs lines 209-222). -/
inductive ResKind where
  | nutrients
  | energy
  | water
deriving DecidableEq

/-- The `sources_access` closure for a kind (map.rs lines 210-219). -/
def SourceMap.get (k : ResKind) (s : SourceMap) : List Source :=
  match k with
  | .nutrients => s.nutrients
  | .energy => s.energy
  | .water => s.water

/-- The `resources_access` closure for a kind, as a reader. -/
def Resources.get (k : ResKind) (r : Resources) : ℝ :=
  match k with
  | .nutrients => r.nutrients
  | .energy => r.energy
  | .water => r.water

/-- The `resources_access` closure for a kind, as an in-place update. -/
def Resources.update (k : ResKind) (f : ℝ → ℝ) (r : Resources) : Resources :=
  match k with
  | .nutrients => { r with nutrients := f r.nutrients }
  | .energy => { r with energy := f r.energy }
  | .water => { r with water := f r.water }

def Tile.update (k : ResKind) (f : ℝ → ℝ) (t : Tile) : Tile :=
  ⟨Resources.update k f t.base_resources⟩

/-- Rust `f64::clamp` with `min = 0.0`, `max = 1.0` (map.rs line 299). -/
noncomputable def rustClamp (x lo hi : ℝ) : ℝ :=
  if x < lo then lo else if x > hi then hi else x

/-- The whole map (`map.rs`, `Map`): chunk data and sources.  The only
implementation of the `MapData` trait is `MapCyclic`, so the boxed trait
object is embedded as a `MapCyclic`. -/
structure Map where
  data : MapCyclic
  sources : SourceMap

/-- The reset sweep of `populate_resource` (map.rs lines 233-239): mark the
chunk modified and zero the target resource of every tile. -/
def resetChunk (k : ResKind) (c : Chunk) : Chunk :=
  { c with modified := true, tiles := c.tiles.map (Tile.update k fun _ => 0) }

/-- The clamp sweep of `populate_resource` (map.rs lines 295-301). -/
noncomputable def clampChunk (k : ResKind) (c : Chunk) : Chunk :=
  { c with tiles := c.tiles.map (Tile.update k fun x => rustClamp x 0 1) }

/-- The accumulation into one chunk (map.rs lines 281-289): the per-tile
contributions are zipped onto the tiles; tiles beyond the contribution list
keep their value, as with the Rust `zip` of in-place iterators. -/
def addPopChunk (k : ResKind) (pop : List ℝ) (c : Chunk) : Chunk :=
  { c with tiles :=
      List.zipWith (fun v t => Tile.update k (fun x => x + v) t) pop c.tiles ++
        c.tiles.drop pop.length }

/-- The list of the six chunk types iterated in `populate_resource`
(map.rs lines 262-269), in source order. -/
def chunkTypesList : List ChunkType :=
  [.Bulk, .Edge .Top, .Edge .Middle, .Edge .Bottom, .Vertex .Top, .Vertex .Bottom]

/-- The Rust range `lo..hi` as a list of integers. -/
def intRange (lo hi : ℤ) : List ℤ :=
  (List.range (hi - lo).toNat).map fun (k : ℕ) => lo + (k : ℤ)

/-- The chunk offsets enumerated for one source in `populate_resource`
(map.rs lines 250-256): `y` from `-range` to `range`, and for each `y` the
`(min_x, max_x)` pair chosen by the sign of `y`. -/
def hexOffsets (range : ℤ) : List Index :=
  (intRange (-range) (range + 1)).flatMap fun y =>
    let min_x : ℤ := if y < 0 then -range - y else -range
    let max_x : ℤ := if y < 0 then range else range - y
    (intRange min_x (max_x + 1)).map fun x => (⟨x, y⟩ : Index)

/-- The chunk-count radius of a source (map.rs line 244):
`(source.range() / (1.5 * CHUNK_SIZE)).ceil() as i64`. -/
noncomputable def sourceChunkRadius (N : ℕ) (src : Source) : ℤ :=
  ⌈Source.range src / (1.5 * (N : ℝ))⌉

/-- The body of the innermost loop of `populate_resource`
(map.rs lines 271-290): resolve the chunk through `get_index` (skipping on
`None`), then add the evaluated contributions to its tiles. -/
noncomputable def applyChunkType (N : ℕ) (k : ResKind) (src : Source)
    (chunk_index : Index) (chunk_coords : Point) (d : MapCyclic)
    (ct : ChunkType) : MapCyclic :=
  match d.get_index ct chunk_index with
  | none => d
  | some i =>
    d.modifyChunk ct i
      (addPopChunk k (Source.evaluate src chunk_coords (ChunkType.get_tile_centers N ct)))

/-- The per-source sweep of `populate_resource` (map.rs lines 242-293). -/
noncomputable def applySource (N : ℕ) (k : ResKind) (d : MapCyclic)
    (src : Source) : MapCyclic :=
  let range : ℤ := sourceChunkRadius N src
  let center : Index := coordinate_to_chunk N (Source.center src)
  (hexOffsets range).foldl
    (fun d off =>
      let chunk_index := center + off
      let chunk_coords := chunk_to_coordinate N chunk_index
      chunkTypesList.foldl (applyChunkType N k src chunk_index chunk_coords) d)
    d

/-- `Map::populate_resource` (map.rs lines 225-302): reset, accumulate every
source, clamp. -/
noncomputable def Map.populate_resource (N : ℕ) (k : ResKind) (m : Map) : Map :=
  let d1 := MapCyclic.mapChunks (resetChunk k) m.data
  let d2 := (SourceMap.get k m.sources).foldl (applySource N k) d1
  { m with data := MapCyclic.mapChunks (clampChunk k) d2 }

/-- `Map::populate_resources` (map.rs lines 209-222): nutrients, then energy,
then water. -/
noncomputable def Map.populate_resources (N : ℕ) (m : Map) : Map :=
  Map.populate_resource N .water
    (Map.populate_resource N .energy (Map.populate_resource N .nutrients m))

/-- `Map::new` (map.rs lines 177-185). -/
noncomputable def Map.new (N : ℕ) (data : MapCyclic) (sources : SourceMap) : Map :=
  Map.populate_resources N ⟨data, sources⟩

/-- The scoped source mutator (`map.rs`, `SourceMapMut`), holding the map it
borrows. -/
structure SourceMapMut where
  map : Map

/-- `Map::get_sources_mut` (map.rs lines 204-206). -/
def Map.get_sources_mut (m : Map) : SourceMapMut := ⟨m⟩

/-- An arbitrary edit of the sources through `SourceMapMut::get_mut`
(map.rs lines 318-320), as a state transformer. -/
def SourceMapMut.modify (h : SourceMapMut) (f : SourceMap → SourceMap) :
    SourceMapMut :=
  ⟨{ h.map with sources := f h.map.sources }⟩

/-- `Drop for SourceMapMut` (map.rs lines 323-328): releasing the handle
re-runs the full population pass. -/
noncomputable def SourceMapMut.drop (N : ℕ) (h : SourceMapMut) : Map :=
  Map.populate_resources N h.map

/-- C7: `Chunk::new` returns `InvalidSize` carrying the received and expected
tile counts exactly when the tile count differs from the chunk type's
required count; on success the chunk holds exactly the given tiles. -/
theorem chunk_new_size_contract (N : ℕ) (ct : ChunkType) (idx : ℕ)
    (tiles : List Tile) :
    (Chunk.new N ct idx tiles =
        Except.error (NewChunkError.InvalidSize tiles.length
          (ChunkType.get_tile_count N ct)) ↔
      tiles.length ≠ ChunkType.get_tile_count N ct) ∧
    (∀ c : Chunk, Chunk.new N ct idx tiles = Except.ok c →
      c.tiles = tiles ∧ c.chunk_type = ct ∧ c.index = idx ∧ c.modified = true) ∧
    (tiles.length = ChunkType.get_tile_count N ct →
      Chunk.new N ct idx tiles = Except.ok ⟨tiles, ct, idx, true⟩) := by
  unfold Chunk.new
  split_ifs with h
  · refine ⟨by simp [h], fun c hc => by simp at hc, fun hlen => absurd hlen h⟩
  · refine ⟨by simp [h], fun c hc => ?_, fun _ => rfl⟩
    cases hc
    exact ⟨rfl, rfl, rfl, rfl⟩

/-- Witness for C7: at `CHUNK_SIZE = 2` an empty tile list is rejected by
`Chunk::new` for a bulk chunk with the received and expected counts. -/
theorem chunk_new_size_contract_witness :
    (List.length ([] : List Tile) ≠ ChunkType.get_tile_count 2 ChunkType.Bulk) ∧
      Chunk.new 2 ChunkType.Bulk 0 [] =
        Except.error (NewChunkError.InvalidSize (List.length ([] : List Tile))
          (ChunkType.get_tile_count 2 ChunkType.Bulk)) :=
  ⟨by decide, ((chunk_new_size_contract 2 ChunkType.Bulk 0 []).1).mpr (by decide)⟩

/-- C10: in `MapCyclic`, `get_chunk` and the mutable access return the
`Top`-vertex slot for both vertex types (both ids are 0); every `get_chunk`
result is one of the bulk, edge, or slot-0 vertex chunks, while the stored
`Bottom`-vertex chunk is still enumerated by `get_chunks`. -/
theorem cyclic_vertex_alias (m : MapCyclic) (i j : ℕ) (ct : ChunkType)
    (f : Chunk → Chunk) :
    ChunkVertexType.id ChunkVertexType.Top = 0 ∧
    ChunkVertexType.id ChunkVertexType.Bottom = 0 ∧
    m.get_chunk (ChunkType.Vertex ChunkVertexType.Top) i = m.chunks_vertex 0 ∧
    m.get_chunk (ChunkType.Vertex ChunkVertexType.Bottom) i = m.chunks_vertex 0 ∧
    m.modifyChunk (ChunkType.Vertex ChunkVertexType.Bottom) i f =
      m.modifyChunk (ChunkType.Vertex ChunkVertexType.Top) i f ∧
    m.get_chunk ct j ∈ [m.chunks_bulk, m.chunks_edge 0, m.chunks_edge 1,
      m.chunks_edge 2, m.chunks_vertex 0] ∧
    m.chunks_vertex 1 ∈ m.get_chunks := by
  refine ⟨rfl, rfl, rfl, rfl, rfl, ?_, ?_⟩
  · rcases ct with _ | e | v
    · exact List.mem_cons_self _ _
    · rcases e with _ | _ | _
      · exact List.mem_cons_of_mem _ (List.mem_cons_self _ _)
      · exact List.mem_cons_of_mem _ (List.mem_cons_of_mem _ (List.mem_cons_self _ _))
      · exact List.mem_cons_of_mem _ (List.mem_cons_of_mem _
          (List.mem_cons_of_mem _ (List.mem_cons_self _ _)))
    · rcases v with _ | _ <;>
        exact List.mem_cons_of_mem _ (List.mem_cons_of_mem _
          (List.mem_cons_of_mem _ (List.mem_cons_of_mem _ (List.mem_cons_self _ _))))
  · simp [MapCyclic.get_chunks]

theorem intRange_mem (lo hi x : ℤ) : x ∈ intRange lo hi ↔ lo ≤ x ∧ x < hi := by
  constructor
  · intro hx
    obtain ⟨k, hk, hke⟩ := List.mem_map.mp hx
    have hk2 := List.mem_range.mp hk
    rw [Int.lt_toNat] at hk2
    omega
  · intro h
    refine List.mem_map.mpr ⟨(x - lo).toNat, List.mem_range.mpr ?_, ?_⟩
    · rw [Int.lt_toNat, Int.toNat_of_nonneg (by omega)]
      omega
    · rw [Int.toNat_of_nonneg (by omega)]
      omega

theorem hexOffsets_mem (r : ℤ) (i : Index) :
    i ∈ hexOffsets r ↔
      -r ≤ i.y ∧ i.y ≤ r ∧ max (-r) (-r - i.y) ≤ i.x ∧ i.x ≤ min r (r - i.y) := by
  obtain ⟨ix, iy⟩ := i
  constructor
  · intro hmem
    obtain ⟨y, hy, hin⟩ := List.mem_flatMap.mp hmem
    simp only [List.mem_map] at hin
    obtain ⟨x, hx, hxe⟩ := hin
    cases hxe
    rw [intRange_mem] at hy hx
    dsimp only
    by_cases hy0 : iy < 0
    · simp only [if_pos hy0] at hx
      omega
    · simp only [if_neg hy0] at hx
      omega
  · intro h
    dsimp only at h
    refine List.mem_flatMap.mpr ⟨iy, ?_, ?_⟩
    · rw [intRange_mem]
      omega
    · simp only [List.mem_map]
      refine ⟨ix, ?_, rfl⟩
      rw [intRange_mem]
      by_cases hy0 : iy < 0
      · simp only [if_pos hy0]
        omega
      · simp only [if_neg hy0]
        omega

/-- C8: the chunk offsets enumerated for a source in `populate_resource` are
exactly the hexagonal neighborhood of radius
`r = ceil(range / (1.5 * CHUNK_SIZE))`: `y ∈ [-r, r]` with `x` running from
`max (-r) (-r - y)` to `min r (r - y)`. -/
theorem populate_offsets_hexagonal (N : ℕ) (src : Source) (i : Index) :
    i ∈ hexOffsets (sourceChunkRadius N src) ↔
      -(sourceChunkRadius N src) ≤ i.y ∧ i.y ≤ sourceChunkRadius N src ∧
        max (-(sourceChunkRadius N src)) (-(sourceChunkRadius N src) - i.y) ≤ i.x ∧
        i.x ≤ min (sourceChunkRadius N src) (sourceChunkRadius N src - i.y) :=
  hexOffsets_mem (sourceChunkRadius N src) i

theorem get_chunks_mapChunks (f : Chunk → Chunk) (m : MapCyclic) :
    (MapCyclic.mapChunks f m).get_chunks =
      [f m.chunks_bulk, f (m.chunks_edge 0), f (m.chunks_edge 1),
       f (m.chunks_edge 2), f (m.chunks_vertex 0), f (m.chunks_vertex 1)] := rfl

theorem get_chunks_modify_bulk (m : MapCyclic) (i : ℕ) (f : Chunk → Chunk) :
    (m.modifyChunk .Bulk i f).get_chunks =
      [f m.chunks_bulk, m.chunks_edge 0, m.chunks_edge 1, m.chunks_edge 2,
       m.chunks_vertex 0, m.chunks_vertex 1] := rfl

theorem get_chunks_modify_edge_t (m : MapCyclic) (i : ℕ) (f : Chunk → Chunk) :
    (m.modifyChunk (.Edge .Top) i f).get_chunks =
      [m.chunks_bulk, f (m.chunks_edge 0), m.chunks_edge 1, m.chunks_edge 2,
       m.chunks_vertex 0, m.chunks_vertex 1] := rfl

theorem get_chunks_modify_edge_m (m : MapCyclic) (i : ℕ) (f : Chunk → Chunk) :
    (m.modifyChunk (.Edge .Middle) i f).get_chunks =
      [m.chunks_bulk, m.chunks_edge 0, f (m.chunks_edge 1), m.chunks_edge 2,
       m.chunks_vertex 0, m.chunks_vertex 1] := rfl

theorem get_chunks_modify_edge_b (m : MapCyclic) (i : ℕ) (f : Chunk → Chunk) :
    (m.modifyChunk (.Edge .Bottom) i f).get_chunks =
      [m.chunks_bulk, m.chunks_edge 0, m.chunks_edge 1, f (m.chunks_edge 2),
       m.chunks_vertex 0, m.chunks_vertex 1] := rfl

theorem get_chunks_modify_vertex_t (m : MapCyclic) (i : ℕ) (f : Chunk → Chunk) :
    (m.modifyChunk (.Vertex .Top) i f).get_chunks =
      [m.chunks_bulk, m.chunks_edge 0, m.chunks_edge 1, m.chunks_edge 2,
       f (m.chunks_vertex 0), m.chunks_vertex 1] := rfl

theorem get_chunks_modify_vertex_b (m : MapCyclic) (i : ℕ) (f : Chunk → Chunk) :
    (m.modifyChunk (.Vertex .Bottom) i f).get_chunks =
      [m.chunks_bulk, m.chunks_edge 0, m.chunks_edge 1, m.chunks_edge 2,
       f (m.chunks_vertex 0), m.chunks_vertex 1] := rfl

/-- Every chunk enumerated after `mapChunks f` is the image under `f` of an
enumerated chunk of the original map. -/
theorem mem_get_chunks_mapChunks {f : Chunk → Chunk} {m : MapCyclic} {c : Chunk}
    (h : c ∈ (MapCyclic.mapChunks f m).get_chunks) :
    ∃ c0 ∈ m.get_chunks, c = f c0 := by
  rw [get_chunks_mapChunks] at h
  simp only [List.mem_cons, List.not_mem_nil, or_false] at h
  simp only [MapCyclic.get_chunks, List.mem_cons, List.not_mem_nil, or_false]
  rcases h with h | h | h | h | h | h <;> subst h
  · exact ⟨m.chunks_bulk, by tauto, rfl⟩
  · exact ⟨m.chunks_edge 0, by tauto, rfl⟩
  · exact ⟨m.chunks_edge 1, by tauto, rfl⟩
  · exact ⟨m.chunks_edge 2, by tauto, rfl⟩
  · exact ⟨m.chunks_vertex 0, by tauto, rfl⟩
  · exact ⟨m.chunks_vertex 1, by tauto, rfl⟩

/-- Every chunk enumerated after `modifyChunk` is either an enumerated chunk
of the original map or the image under the update of one. -/
theorem mem_get_chunks_modifyChunk {m : MapCyclic} {ct : ChunkType} {i : ℕ}
    {f : Chunk → Chunk} {c : Chunk}
    (h : c ∈ (m.modifyChunk ct i f).get_chunks) :
    c ∈ m.get_chunks ∨ ∃ c0 ∈ m.get_chunks, c = f c0 := by
  have expand : ∀ l : List Chunk, c ∈ l →
      (∀ x ∈ l, x ∈ m.get_chunks ∨ ∃ c0 ∈ m.get_chunks, x = f c0) →
      c ∈ m.get_chunks ∨ ∃ c0 ∈ m.get_chunks, c = f c0 := fun l hc hall => hall c hc
  rcases ct with _ | e | v
  · rw [get_chunks_modify_bulk] at h
    refine expand _ h ?_
    intro x hx
    simp only [List.mem_cons, List.not_mem_nil, or_false] at hx
    simp only [MapCyclic.get_chunks, List.mem_cons, List.not_mem_nil, or_false]
    rcases hx with hx | hx | hx | hx | hx | hx <;> subst hx
    · exact Or.inr ⟨m.chunks_bulk, by tauto, rfl⟩
    all_goals tauto
  · rcases e with _ | _ | _
    · rw [get_chunks_modify_edge_t] at h
      refine expand _ h ?_
      intro x hx
      simp only [List.mem_cons, List.not_mem_nil, or_false] at hx
      simp only [MapCyclic.get_chunks, List.mem_cons, List.not_mem_nil, or_false]
      rcases hx with hx | hx | hx | hx | hx | hx <;> subst hx
      · tauto
      · exact Or.inr ⟨m.chunks_edge 0, by tauto, rfl⟩
      all_goals tauto
    · rw [get_chunks_modify_edge_m] at h
      refine expand _ h ?_
      intro x hx
      simp only [List.mem_cons, List.not_mem_nil, or_false] at hx
      simp only [MapCyclic.get_chunks, List.mem_cons, List.not_mem_nil, or_false]
      rcases hx with hx | hx | hx | hx | hx | hx <;> subst hx
      · tauto
      · tauto
      · exact Or.inr ⟨m.chunks_edge 1, by tauto, rfl⟩
      all_goals tauto
    · rw [get_chunks_modify_edge_b] at h
      refine expand _ h ?_
      intro x hx
      simp only [List.mem_cons, List.not_mem_nil, or_false] at hx
      simp only [MapCyclic.get_chunks, List.mem_cons, List.not_mem_nil, or_false]
      rcases hx with hx | hx | hx | hx | hx | hx <;> subst hx
      · tauto
      · tauto
      · tauto
      · exact Or.inr ⟨m.chunks_edge 2, by tauto, rfl⟩
      all_goals tauto
  · have hv : (m.modifyChunk (.Vertex v) i f).get_chunks =
        [m.chunks_bulk, m.chunks_edge 0, m.chunks_edge 1, m.chunks_edge 2,
         f (m.chunks_vertex 0), m.chunks_vertex 1] := by
      cases v
      · exact get_chunks_modify_vertex_t m i f
      · exact get_chunks_modify_vertex_b m i f
    rw [hv] at h
    refine expand _ h ?_
    intro x hx
    simp only [List.mem_cons, List.not_mem_nil, or_false] at hx
    simp only [MapCyclic.get_chunks, List.mem_cons, List.not_mem_nil, or_false]
    rcases hx with hx | hx | hx | hx | hx | hx <;> subst hx
    · tauto
    · tauto
    · tauto
    · tauto
    · exact Or.inr ⟨m.chunks_vertex 0, by tauto, rfl⟩
    · tauto

/-- A property of every enumerated chunk of a map layout. -/
def AllChunks (P : Chunk → Prop) (d : MapCyclic) : Prop :=
  ∀ c ∈ d.get_chunks, P c

theorem AllChunks_mapChunks (P Q : Chunk → Prop) {f : Chunk → Chunk}
    {d : MapCyclic} (h : AllChunks P d) (hf : ∀ c, P c → Q (f c)) :
    AllChunks Q (MapCyclic.mapChunks f d) := by
  intro c hc
  obtain ⟨c0, hc0, rfl⟩ := mem_get_chunks_mapChunks hc
  exact hf c0 (h c0 hc0)

theorem AllChunks_modifyChunk {P : Chunk → Prop} {d : MapCyclic}
    {ct : ChunkType} {i : ℕ} {f : Chunk → Chunk} (h : AllChunks P d)
    (hf : ∀ c, P c → P (f c)) : AllChunks P (d.modifyChunk ct i f) := by
  intro c hc
  rcases mem_get_chunks_modifyChunk hc with hc | ⟨c0, hc0, rfl⟩
  · exact h c hc
  · exact hf c0 (h c0 hc0)

theorem foldl_preserve {α β : Type _} (P : β → Prop) (f : β → α → β)
    (l : List α) (hstep : ∀ b a, P b → P (f b a)) :
    ∀ b, P b → P (l.foldl f b) := by
  induction l with
  | nil => intro b h; exact h
  | cons a l ih => intro b h; exact ih _ (hstep b a h)

theorem applyChunkType_eq (N : ℕ) (k : ResKind) (src : Source)
    (chunk_index : Index) (chunk_coords : Point) (d : MapCyclic)
    (ct : ChunkType) :
    applyChunkType N k src chunk_index chunk_coords d ct =
      d.modifyChunk ct 0
        (addPopChunk k (Source.evaluate src chunk_coords
          (ChunkType.get_tile_centers N ct))) := rfl

theorem AllChunks_applySource {P : Chunk → Prop} {d : MapCyclic}
    (N : ℕ) (k : ResKind) (src : Source) (h : AllChunks P d)
    (hf : ∀ pop c, P c → P (addPopChunk k pop c)) :
    AllChunks P (applySource N k d src) := by
  refine foldl_preserve _ _ _ ?_ d h
  intro b off hb
  refine foldl_preserve _ _ _ ?_ b hb
  intro b2 ct hb2
  rw [applyChunkType_eq]
  exact AllChunks_modifyChunk hb2 (hf _)

/-- After a population sweep for any resource kind, every chunk is flagged
modified. -/
theorem populate_resource_all_modified (N : ℕ) (k : ResKind) (m : Map) :
    AllChunks (fun c => c.modified = true) (Map.populate_resource N k m).data := by
  have h1 : AllChunks (fun c => c.modified = true)
      (MapCyclic.mapChunks (resetChunk k) m.data) := by
    refine AllChunks_mapChunks (fun _ => True) _ (fun c _ => trivial) ?_
    intro c _
    rfl
  have h2 : AllChunks (fun c => c.modified = true)
      ((SourceMap.get k m.sources).foldl (applySource N k)
        (MapCyclic.mapChunks (resetChunk k) m.data)) := by
    refine foldl_preserve _ _ _ ?_ _ h1
    intro b src hb
    exact AllChunks_applySource N k src hb (fun pop c hc => hc)
  exact AllChunks_mapChunks _ _ h2 (fun c hc => hc)

/-- C6: after `Map::new` every chunk reports `is_modified`; `resolved` clears
the flag; and a population sweep for any kind (the only core operation that
sets the flag) sets it back on every chunk. -/
theorem dirty_flag_discipline (N : ℕ) (data : MapCyclic) (sources : SourceMap)
    (m : Map) (k : ResKind) (c : Chunk) :
    (∀ c0 ∈ (Map.new N data sources).data.get_chunks, c0.is_modified = true) ∧
    (Chunk.resolved c).is_modified = false ∧
    (∀ c0 ∈ (Map.populate_resource N k m).data.get_chunks,
      c0.is_modified = true) := by
  refine ⟨?_, rfl, ?_⟩
  · intro c0 hc0
    exact populate_resource_all_modified N .water _ c0 hc0
  · intro c0 hc0
    exact populate_resource_all_modified N k m c0 hc0

theorem Tile.update_get_same (k : ResKind) (f : ℝ → ℝ) (t : Tile) :
    (Tile.update k f t).base_resources.get k =
      f (t.base_resources.get k) := by
  cases k <;> rfl

theorem Tile.update_get_other {k k' : ResKind} (hk : k' ≠ k) (f : ℝ → ℝ)
    (t : Tile) :
    (Tile.update k f t).base_resources.get k' = t.base_resources.get k' := by
  cases k <;> cases k' <;> first | rfl | exact absurd rfl hk

theorem mem_zipWith {α β γ : Type _} {f : α → β → γ} {l1 : List α}
    {l2 : List β} {c : γ} (h : c ∈ List.zipWith f l1 l2) :
    ∃ a ∈ l1, ∃ b ∈ l2, c = f a b := by
  induction l1 generalizing l2 with
  | nil => simp at h
  | cons a l ih =>
    cases l2 with
    | nil => simp at h
    | cons b l2 =>
      simp only [List.zipWith_cons_cons, List.mem_cons] at h
      rcases h with rfl | h
      · exact ⟨a, by simp, b, by simp, rfl⟩
      · obtain ⟨a2, ha, b2, hb, rfl⟩ := ih h
        exact ⟨a2, by simp [ha], b2, by simp [hb], rfl⟩

/-- Every tile of `addPopChunk` comes from a tile of the original chunk,
either unchanged or with the target kind updated. -/
theorem mem_tiles_addPopChunk {k : ResKind} {pop : List ℝ} {c : Chunk}
    {t : Tile} (h : t ∈ (addPopChunk k pop c).tiles) :
    ∃ t0 ∈ c.tiles, t = t0 ∨ ∃ v, t = Tile.update k (fun x => x + v) t0 := by
  simp only [addPopChunk, List.mem_append] at h
  rcases h with h | h
  · obtain ⟨v, _, t0, ht0, rfl⟩ := mem_zipWith h
    exact ⟨t0, ht0, Or.inr ⟨v, rfl⟩⟩
  · exact ⟨t, List.mem_of_mem_drop h, Or.inl rfl⟩

/-- A property of every tile of every enumerated chunk. -/
def AllTiles (P : Tile → Prop) (d : MapCyclic) : Prop :=
  ∀ c ∈ d.get_chunks, ∀ t ∈ c.tiles, P t

theorem AllTiles_mapChunks (P Q : Tile → Prop) {f : Chunk → Chunk}
    {d : MapCyclic} (h : AllTiles P d)
    (hf : ∀ c, (∀ t ∈ c.tiles, P t) → ∀ t ∈ (f c).tiles, Q t) :
    AllTiles Q (MapCyclic.mapChunks f d) := by
  intro c hc
  obtain ⟨c0, hc0, rfl⟩ := mem_get_chunks_mapChunks hc
  exact hf c0 (h c0 hc0)

theorem AllTiles_modifyChunk {P : Tile → Prop} {d : MapCyclic}
    {ct : ChunkType} {i : ℕ} {f : Chunk → Chunk} (h : AllTiles P d)
    (hf : ∀ c, (∀ t ∈ c.tiles, P t) → ∀ t ∈ (f c).tiles, P t) :
    AllTiles P (d.modifyChunk ct i f) := by
  intro c hc
  rcases mem_get_chunks_modifyChunk hc with hc | ⟨c0, hc0, rfl⟩
  · exact h c hc
  · exact hf c0 (h c0 hc0)

/-- Accumulation for kind `k` does not change any tile's value of a
different kind. -/
theorem AllTiles_applySource_other (k k' : ResKind) (hk : k' ≠ k)
    (Q : ℝ → Prop) {d : MapCyclic} (N : ℕ) (src : Source)
    (h : AllTiles (fun t => Q (t.base_resources.get k')) d) :
    AllTiles (fun t => Q (t.base_resources.get k')) (applySource N k d src) := by
  refine foldl_preserve _ _ _ ?_ d h
  intro b off hb
  refine foldl_preserve _ _ _ ?_ b hb
  intro b2 ct hb2
  rw [applyChunkType_eq]
  refine AllTiles_modifyChunk hb2 ?_
  intro c hc t ht
  obtain ⟨t0, ht0, rfl | ⟨v, rfl⟩⟩ := mem_tiles_addPopChunk ht
  · exact hc _ ht0
  · rw [Tile.update_get_other hk]
    exact hc t0 ht0

/-- A population sweep for kind `k` preserves any property of the values of
a different kind `k'` across all tiles. -/
theorem populate_resource_keeps_other (k k' : ResKind) (hk : k' ≠ k)
    (Q : ℝ → Prop) (N : ℕ) (m : Map)
    (h : AllTiles (fun t => Q (t.base_resources.get k')) m.data) :
    AllTiles (fun t => Q (t.base_resources.get k'))
      (Map.populate_resource N k m).data := by
  have h1 : AllTiles (fun t => Q (t.base_resources.get k'))
      (MapCyclic.mapChunks (resetChunk k) m.data) := by
    refine AllTiles_mapChunks _ _ h ?_
    intro c hc t ht
    simp only [resetChunk] at ht
    obtain ⟨t0, ht0, rfl⟩ := List.mem_map.mp ht
    rw [Tile.update_get_other hk]
    exact hc t0 ht0
  have h2 := foldl_preserve
    (AllTiles (fun t => Q (t.base_resources.get k'))) (applySource N k)
    (SourceMap.get k m.sources)
    (fun b src hb => AllTiles_applySource_other k k' hk Q N src hb) _ h1
  refine AllTiles_mapChunks _ _ h2 ?_
  intro c hc t ht
  simp only [clampChunk] at ht
  obtain ⟨t0, ht0, rfl⟩ := List.mem_map.mp ht
  rw [Tile.update_get_other hk]
  exact hc t0 ht0

theorem rustClamp_mem (x : ℝ) : 0 ≤ rustClamp x 0 1 ∧ rustClamp x 0 1 ≤ 1 := by
  unfold rustClamp
  split_ifs with h1 h2 <;> constructor <;> linarith

/-- After a population sweep for kind `k`, every tile's value of kind `k`
lies in `[0, 1]` (the final clamp sweep). -/
theorem populate_resource_bounds (N : ℕ) (k : ResKind) (m : Map) :
    AllTiles (fun t => 0 ≤ t.base_resources.get k ∧ t.base_resources.get k ≤ 1)
      (Map.populate_resource N k m).data := by
  refine AllTiles_mapChunks (fun _ => True) _ (fun c _ t _ => trivial) ?_
  intro c _ t ht
  simp only [clampChunk] at ht
  obtain ⟨t0, _, rfl⟩ := List.mem_map.mp ht
  rw [Tile.update_get_same]
  exact rustClamp_mem _

theorem Resources.get_nutrients (r : Resources) :
    Resources.get .nutrients r = r.nutrients := rfl

theorem Resources.get_energy (r : Resources) :
    Resources.get .energy r = r.energy := rfl

theorem Resources.get_water (r : Resources) :
    Resources.get .water r = r.water := rfl

theorem populate_resources_bounds (N : ℕ) (m : Map) :
    ∀ c ∈ (Map.populate_resources N m).data.get_chunks, ∀ t ∈ c.tiles,
      (0 ≤ t.base_resources.nutrients ∧ t.base_resources.nutrients ≤ 1) ∧
      (0 ≤ t.base_resources.energy ∧ t.base_resources.energy ≤ 1) ∧
      (0 ≤ t.base_resources.water ∧ t.base_resources.water ≤ 1) := by
  have hn : AllTiles (fun t => 0 ≤ t.base_resources.get .nutrients ∧
      t.base_resources.get .nutrients ≤ 1) (Map.populate_resources N m).data := by
    unfold Map.populate_resources
    exact populate_resource_keeps_other .water .nutrients (by decide)
      (fun x => 0 ≤ x ∧ x ≤ 1) N _
      (populate_resource_keeps_other .energy .nutrients (by decide)
        (fun x => 0 ≤ x ∧ x ≤ 1) N _
        (populate_resource_bounds N .nutrients m))
  have he : AllTiles (fun t => 0 ≤ t.base_resources.get .energy ∧
      t.base_resources.get .energy ≤ 1) (Map.populate_resources N m).data := by
    unfold Map.populate_resources
    exact populate_resource_keeps_other .water .energy (by decide)
      (fun x => 0 ≤ x ∧ x ≤ 1) N _
      (populate_resource_bounds N .energy _)
  have hw : AllTiles (fun t => 0 ≤ t.base_resources.get .water ∧
      t.base_resources.get .water ≤ 1) (Map.populate_resources N m).data := by
    unfold Map.populate_resources
    exact populate_resource_bounds N .water _
  intro c hc t ht
  exact ⟨hn c hc t ht, he c hc t ht, hw c hc t ht⟩

/-- C2: after any population pass (at `Map::new` or on release of the source
mutation handle), every tile of every chunk has each resource value in
`[0, 1]`. -/
theorem resource_values_clamped (N : ℕ) (data : MapCyclic)
    (sources : SourceMap) (m : Map) :
    (∀ c ∈ (Map.new N data sources).data.get_chunks, ∀ t ∈ c.tiles,
      (0 ≤ t.base_resources.nutrients ∧ t.base_resources.nutrients ≤ 1) ∧
      (0 ≤ t.base_resources.energy ∧ t.base_resources.energy ≤ 1) ∧
      (0 ≤ t.base_resources.water ∧ t.base_resources.water ≤ 1)) ∧
    (∀ c ∈ (SourceMapMut.drop N (Map.get_sources_mut m)).data.get_chunks,
      ∀ t ∈ c.tiles,
      (0 ≤ t.base_resources.nutrients ∧ t.base_resources.nutrients ≤ 1) ∧
      (0 ≤ t.base_resources.energy ∧ t.base_resources.energy ≤ 1) ∧
      (0 ≤ t.base_resources.water ∧ t.base_resources.water ≤ 1)) :=
  ⟨populate_resources_bounds N ⟨data, sources⟩, populate_resources_bounds N m⟩

/-- Two tiles agree on the values of every kind in `L`. -/
def TilesAgree (L : List ResKind) (t1 t2 : Tile) : Prop :=
  ∀ k ∈ L, t1.base_resources.get k = t2.base_resources.get k

/-- Two chunks have the same type, index and tile count, and their tiles
agree pointwise on the kinds in `L`. -/
def ChunkAgree (L : List ResKind) (c1 c2 : Chunk) : Prop :=
  c1.chunk_type = c2.chunk_type ∧ c1.index = c2.index ∧
    List.Forall₂ (TilesAgree L) c1.tiles c2.tiles

/-- Slotwise chunk agreement between two cyclic layouts. -/
def MapAgree (L : List ResKind) (d1 d2 : MapCyclic) : Prop :=
  ChunkAgree L d1.chunks_bulk d2.chunks_bulk ∧
  (∀ j : Fin 3, ChunkAgree L (d1.chunks_edge j) (d2.chunks_edge j)) ∧
  (∀ j : Fin 2, ChunkAgree L (d1.chunks_vertex j) (d2.chunks_vertex j))

theorem TilesAgree_reset {L : List ResKind} (k : ResKind) {t1 t2 : Tile}
    (h : TilesAgree L t1 t2) :
    TilesAgree (k :: L) (Tile.update k (fun _ => 0) t1)
      (Tile.update k (fun _ => 0) t2) := by
  intro k2 hk2
  by_cases hk2k : k2 = k
  · subst hk2k
    rw [Tile.update_get_same, Tile.update_get_same]
  · rw [Tile.update_get_other hk2k, Tile.update_get_other hk2k]
    rcases List.mem_cons.mp hk2 with h2 | h2
    · exact absurd h2 hk2k
    · exact h k2 h2

theorem TilesAgree_apply_fun {L : List ResKind} (k : ResKind) (f : ℝ → ℝ)
    {t1 t2 : Tile} (h : TilesAgree (k :: L) t1 t2) :
    TilesAgree (k :: L) (Tile.update k f t1) (Tile.update k f t2) := by
  intro k2 hk2
  by_cases hk2k : k2 = k
  · subst hk2k
    rw [Tile.update_get_same, Tile.update_get_same,
      h k2 (List.mem_cons_self _ _)]
  · rw [Tile.update_get_other hk2k, Tile.update_get_other hk2k]
    exact h k2 hk2

theorem forall2_map {α β γ δ : Type _} {R : α → β → Prop} {S : γ → δ → Prop}
    (f : α → γ) (g : β → δ) (hfg : ∀ a b, R a b → S (f a) (g b)) :
    ∀ {l1 : List α} {l2 : List β}, List.Forall₂ R l1 l2 →
      List.Forall₂ S (l1.map f) (l2.map g) := by
  intro l1 l2 h
  induction h with
  | nil => exact List.Forall₂.nil
  | cons hab htail ih => exact List.Forall₂.cons (hfg _ _ hab) ih

theorem forall2_addPop {α β : Type _} {R : β → β → Prop} (g : α → β → β)
    (hg : ∀ a b1 b2, R b1 b2 → R (g a b1) (g a b2)) :
    ∀ (pop : List α) {l1 l2 : List β}, List.Forall₂ R l1 l2 →
      List.Forall₂ R (List.zipWith g pop l1 ++ l1.drop pop.length)
        (List.zipWith g pop l2 ++ l2.drop pop.length) := by
  intro pop
  induction pop with
  | nil =>
    intro l1 l2 h
    simpa using h
  | cons a pop ih =>
    intro l1 l2 h
    cases h with
    | nil => exact List.Forall₂.nil
    | cons hab htail => exact List.Forall₂.cons (hg _ _ _ hab) (ih htail)

theorem ChunkAgree_resetChunk {L : List ResKind} (k : ResKind) {c1 c2 : Chunk}
    (h : ChunkAgree L c1 c2) :
    ChunkAgree (k :: L) (resetChunk k c1) (resetChunk k c2) := by
  obtain ⟨ht, hi, htiles⟩ := h
  exact ⟨ht, hi, forall2_map _ _ (fun a b hab => TilesAgree_reset k hab) htiles⟩

theorem ChunkAgree_addPopChunk {L : List ResKind} (k : ResKind) (pop : List ℝ)
    {c1 c2 : Chunk} (h : ChunkAgree (k :: L) c1 c2) :
    ChunkAgree (k :: L) (addPopChunk k pop c1) (addPopChunk k pop c2) := by
  obtain ⟨ht, hi, htiles⟩ := h
  exact ⟨ht, hi,
    forall2_addPop (fun v t => Tile.update k (fun x => x + v) t)
      (fun v t1 t2 hab => TilesAgree_apply_fun k (fun x => x + v) hab) pop htiles⟩

theorem ChunkAgree_clampChunk {L : List ResKind} (k : ResKind) {c1 c2 : Chunk}
    (h : ChunkAgree (k :: L) c1 c2) :
    ChunkAgree (k :: L) (clampChunk k c1) (clampChunk k c2) := by
  obtain ⟨ht, hi, htiles⟩ := h
  exact ⟨ht, hi,
    forall2_map _ _ (fun a b hab => TilesAgree_apply_fun k _ hab) htiles⟩

theorem MapAgree_mapChunks {L L' : List ResKind} (f : Chunk → Chunk)
    {d1 d2 : MapCyclic}
    (hf : ∀ c1 c2, ChunkAgree L c1 c2 → ChunkAgree L' (f c1) (f c2))
    (h : MapAgree L d1 d2) :
    MapAgree L' (MapCyclic.mapChunks f d1) (MapCyclic.mapChunks f d2) := by
  obtain ⟨hb, he, hv⟩ := h
  exact ⟨hf _ _ hb, fun j => hf _ _ (he j), fun j => hf _ _ (hv j)⟩

theorem MapAgree_modifyChunk {L : List ResKind} (ct : ChunkType) (i : ℕ)
    (f : Chunk → Chunk) {d1 d2 : MapCyclic}
    (hf : ∀ c1 c2, ChunkAgree L c1 c2 → ChunkAgree L (f c1) (f c2))
    (h : MapAgree L d1 d2) :
    MapAgree L (d1.modifyChunk ct i f) (d2.modifyChunk ct i f) := by
  obtain ⟨hb, he, hv⟩ := h
  rcases ct with _ | e | v
  · exact ⟨hf _ _ hb, he, hv⟩
  · refine ⟨hb, ?_, hv⟩
    intro j
    by_cases hj : j = edgeFin e
    · subst hj
      simp only [MapCyclic.modifyChunk, Function.update_same]
      exact hf _ _ (he _)
    · simp only [MapCyclic.modifyChunk, Function.update_noteq hj]
      exact he j
  · refine ⟨hb, he, ?_⟩
    intro j
    by_cases hj : j = vertexFin v
    · subst hj
      simp only [MapCyclic.modifyChunk, Function.update_same]
      exact hf _ _ (hv _)
    · simp only [MapCyclic.modifyChunk, Function.update_noteq hj]
      exact hv j

theorem foldl_rel {α β : Type _} (R : β → β → Prop) (f : β → α → β)
    (l : List α) (hstep : ∀ b1 b2 a, R b1 b2 → R (f b1 a) (f b2 a)) :
    ∀ b1 b2, R b1 b2 → R (l.foldl f b1) (l.foldl f b2) := by
  induction l with
  | nil => intro b1 b2 h; exact h
  | cons a l ih => intro b1 b2 h; exact ih _ _ (hstep b1 b2 a h)

theorem applySource_agree {L : List ResKind} (N : ℕ) (k : ResKind)
    (src : Source) {d1 d2 : MapCyclic} (h : MapAgree (k :: L) d1 d2) :
    MapAgree (k :: L) (applySource N k d1 src) (applySource N k d2 src) := by
  refine foldl_rel _ _ _ ?_ d1 d2 h
  intro b1 b2 off hb
  refine foldl_rel _ _ _ ?_ b1 b2 hb
  intro b3 b4 ct hb2
  rw [applyChunkType_eq, applyChunkType_eq]
  exact MapAgree_modifyChunk ct 0 _
    (fun c1 c2 hc => ChunkAgree_addPopChunk k _ hc) hb2

/-- A population sweep for kind `k` run from two same-shaped data layouts
with the same sources makes the layouts additionally agree on kind `k`:
the produced values of kind `k` do not depend on the stale values. -/
theorem populate_resource_agree (N : ℕ) (k : ResKind) (L : List ResKind)
    (s : SourceMap) (d1 d2 : MapCyclic) (h : MapAgree L d1 d2) :
    MapAgree (k :: L) (Map.populate_resource N k ⟨d1, s⟩).data
      (Map.populate_resource N k ⟨d2, s⟩).data := by
  show MapAgree (k :: L)
    (MapCyclic.mapChunks (clampChunk k)
      ((SourceMap.get k s).foldl (applySource N k)
        (MapCyclic.mapChunks (resetChunk k) d1)))
    (MapCyclic.mapChunks (clampChunk k)
      ((SourceMap.get k s).foldl (applySource N k)
        (MapCyclic.mapChunks (resetChunk k) d2)))
  refine MapAgree_mapChunks _ (fun c1 c2 hc => ChunkAgree_clampChunk k hc) ?_
  refine foldl_rel _ _ _ (fun b1 b2 src hb => applySource_agree N k src hb) _ _ ?_
  exact MapAgree_mapChunks _ (fun c1 c2 hc => ChunkAgree_resetChunk k hc) h

theorem Tile.tile_eq_of_agree {t1 t2 : Tile}
    (h : TilesAgree [.water, .energy, .nutrients] t1 t2) : t1 = t2 := by
  obtain ⟨⟨n1, e1, w1⟩⟩ := t1
  obtain ⟨⟨n2, e2, w2⟩⟩ := t2
  have hw := h .water (by simp)
  have he := h .energy (by simp)
  have hn := h .nutrients (by simp)
  simp only [Resources.get] at hw he hn
  subst hw he hn
  rfl

theorem tiles_eq_of_forall2 {l1 l2 : List Tile}
    (h : List.Forall₂ (TilesAgree [.water, .energy, .nutrients]) l1 l2) :
    l1 = l2 := by
  induction h with
  | nil => rfl
  | cons hab htail ih => rw [Tile.tile_eq_of_agree hab, ih]

theorem Chunk.chunk_eq_of_agree {c1 c2 : Chunk}
    (h : ChunkAgree [.water, .energy, .nutrients] c1 c2)
    (h1 : c1.modified = true) (h2 : c2.modified = true) : c1 = c2 := by
  obtain ⟨ht, hi, htiles⟩ := h
  obtain ⟨t1, ty1, i1, m1⟩ := c1
  obtain ⟨t2, ty2, i2, m2⟩ := c2
  simp only at ht hi h1 h2 htiles
  subst ht hi h1 h2
  rw [tiles_eq_of_forall2 htiles]

theorem MapCyclic.mapcyclic_eq_of_agree {d1 d2 : MapCyclic}
    (h : MapAgree [.water, .energy, .nutrients] d1 d2)
    (h1 : AllChunks (fun c => c.modified = true) d1)
    (h2 : AllChunks (fun c => c.modified = true) d2) : d1 = d2 := by
  obtain ⟨hb, he, hv⟩ := h
  obtain ⟨b1, e1, v1⟩ := d1
  obtain ⟨b2, e2, v2⟩ := d2
  simp only at hb he hv
  congr 1
  · exact Chunk.chunk_eq_of_agree hb
      (h1 _ (by simp [MapCyclic.get_chunks]))
      (h2 _ (by simp [MapCyclic.get_chunks]))
  · funext j
    fin_cases j
    · exact Chunk.chunk_eq_of_agree (he 0)
        (h1 _ (by simp [MapCyclic.get_chunks]))
        (h2 _ (by simp [MapCyclic.get_chunks]))
    · exact Chunk.chunk_eq_of_agree (he 1)
        (h1 _ (by simp [MapCyclic.get_chunks]))
        (h2 _ (by simp [MapCyclic.get_chunks]))
    · exact Chunk.chunk_eq_of_agree (he 2)
        (h1 _ (by simp [MapCyclic.get_chunks]))
        (h2 _ (by simp [MapCyclic.get_chunks]))
  · funext j
    fin_cases j
    · exact Chunk.chunk_eq_of_agree (hv 0)
        (h1 _ (by simp [MapCyclic.get_chunks]))
        (h2 _ (by simp [MapCyclic.get_chunks]))
    · exact Chunk.chunk_eq_of_agree (hv 1)
        (h1 _ (by simp [MapCyclic.get_chunks]))
        (h2 _ (by simp [MapCyclic.get_chunks]))

/-- Full population from two same-shaped layouts with the same sources yields
identical layouts: the result depends only on the sources and the shape. -/
theorem populate_resources_data_eq (N : ℕ) (s : SourceMap) (d1 d2 : MapCyclic)
    (h : MapAgree [] d1 d2) :
    (Map.populate_resources N ⟨d1, s⟩).data =
      (Map.populate_resources N ⟨d2, s⟩).data := by
  have h1 := populate_resource_agree N .nutrients [] s d1 d2 h
  have h2 := populate_resource_agree N .energy [.nutrients] s
    (Map.populate_resource N .nutrients ⟨d1, s⟩).data
    (Map.populate_resource N .nutrients ⟨d2, s⟩).data h1
  have h3 := populate_resource_agree N .water [.energy, .nutrients] s
    (Map.populate_resource N .energy ⟨(Map.populate_resource N .nutrients ⟨d1, s⟩).data, s⟩).data
    (Map.populate_resource N .energy ⟨(Map.populate_resource N .nutrients ⟨d2, s⟩).data, s⟩).data h2
  have hflag1 := populate_resource_all_modified N .water
    (Map.populate_resource N .energy (Map.populate_resource N .nutrients ⟨d1, s⟩))
  have hflag2 := populate_resource_all_modified N .water
    (Map.populate_resource N .energy (Map.populate_resource N .nutrients ⟨d2, s⟩))
  exact MapCyclic.mapcyclic_eq_of_agree h3 hflag1 hflag2

/-- C3: releasing the scoped source-mutation handle re-runs the full
population pass, so the sources seen afterwards are the edited ones and the
tile resource data is exactly what `populate_resources` computes from the
sources as they stand at release — independent of the stale resource values
(any same-shaped data layout `d2` gives the same resource data). -/
theorem scoped_mutation_commit (N : ℕ) (d1 d2 : MapCyclic) (s : SourceMap)
    (f : SourceMap → SourceMap) (h : MapAgree [] d1 d2) :
    (SourceMapMut.drop N (SourceMapMut.modify (Map.get_sources_mut ⟨d1, s⟩) f)).sources =
      f s ∧
    (SourceMapMut.drop N (SourceMapMut.modify (Map.get_sources_mut ⟨d1, s⟩) f)).data =
      (Map.populate_resources N ⟨d2, f s⟩).data :=
  ⟨rfl, populate_resources_data_eq N (f s) d1 d2 h⟩

/-- A one-tile chunk holding the given value in all three resources. -/
def sampleChunk (x : ℝ) : Chunk := ⟨[⟨⟨x, x, x⟩⟩], .Bulk, 0, false⟩

/-- A cyclic layout whose chunks all hold the given value. -/
def sampleMapCyclic (x : ℝ) : MapCyclic :=
  ⟨sampleChunk x, fun _ => sampleChunk x, fun _ => sampleChunk x⟩

/-- Witness for C3 at two concrete same-shaped layouts with different stale
resource values. -/
theorem scoped_mutation_commit_witness :
    MapAgree [] (sampleMapCyclic 5) (sampleMapCyclic 7) ∧
    ((SourceMapMut.drop 1 (SourceMapMut.modify
        (Map.get_sources_mut ⟨sampleMapCyclic 5, ⟨[], [], []⟩⟩) id)).sources =
      id (⟨[], [], []⟩ : SourceMap) ∧
    (SourceMapMut.drop 1 (SourceMapMut.modify
        (Map.get_sources_mut ⟨sampleMapCyclic 5, ⟨[], [], []⟩⟩) id)).data =
      (Map.populate_resources 1 ⟨sampleMapCyclic 7, id ⟨[], [], []⟩⟩).data) := by
  have hagree : MapAgree [] (sampleMapCyclic 5) (sampleMapCyclic 7) := by
    refine ⟨?_, fun j => ?_, fun j => ?_⟩ <;>
      exact ⟨rfl, rfl, List.Forall₂.cons (fun k hk => absurd hk (List.not_mem_nil k))
        List.Forall₂.nil⟩
  exact ⟨hagree, scoped_mutation_commit 1 (sampleMapCyclic 5) (sampleMapCyclic 7)
    ⟨[], [], []⟩ id hagree⟩
